import Mathlib

/-!
Verification of the character-scene-creator repository.

This file gives a shallow embedding of the scene-composition core of the
repository (layer ordering, transform bookkeeping, image preprocessing
geometry, prompt-directive parsing, and scene-part assembly) and proves or
refutes the specified properties against it.

Sources embedded:
- `src/App.tsx` — application state and the handlers
  `handleCharacterSelect`, `handleDeleteCharacter`, `handleSaveScene`,
  `handleLoadScene`, `handleCharacterReorder`.
- `src/unnamed/part_001` (`Canvas.tsx`) — the `LayerManager.handleDrop`
  drag-reorder algorithm.
- `src/unnamed/part_000` (a revision of `src/services/geminiService.ts`) —
  `processCharacterImage` (resize + rotation-aware canvas sizing) and
  `generateScene` (directive parse, per-character image parts, layering
  narration, final prompt).

Numbers: the resize arithmetic is exact rational arithmetic and is modelled
over `ℚ`; the rotation geometry uses `Real.sin`/`Real.cos` over `ℝ`.
Browser-environment effects (image decode, 2d-context acquisition, the
base64 payload produced by `canvas.toDataURL`) are modelled as explicit
environment inputs.
-/

namespace CSC

/-- `Character` record from `src/unnamed/part_002` (`types.ts`). -/
structure Character where
  id : String
  name : String
  imageUrl : String
  charPrompt : String
deriving DecidableEq

/-- `SoundEffect` record from `types.ts`. -/
structure SoundEffect where
  id : String
  name : String
  url : String
deriving DecidableEq

/-- `GeneratedContent` record from `types.ts` (`type`, `url`, optional
`characterId` and `soundEffectUrl`). -/
structure GeneratedContent where
  kind : String
  url : String
  characterId : Option String
  soundEffectUrl : Option String
deriving DecidableEq

/-- Persisted `Scene` record from `types.ts`, extended with the
`generatedContent` field that `App.tsx` stores on it.  `rotations` and
`positions` are JS `Record`s keyed by character id, modelled as association
lists. -/
structure Scene where
  id : String
  name : String
  characterIds : List String
  scenePrompt : String
  createdAt : Nat
  soundEffect : Option SoundEffect
  rotations : Option (List (String × ℚ))
  positions : Option (List (String × (ℚ × ℚ)))
  generatedContent : Option GeneratedContent
deriving DecidableEq

/-- The mutable state held by the `App` component in `src/App.tsx`
(`useState` hooks), restricted to the fields the embedded handlers read or
write. -/
structure AppState where
  characters : List Character
  scenes : List Scene
  currentSceneId : Option String
  selectedCharacterIds : List String
  scenePrompt : String
  sceneSoundEffect : Option SoundEffect
  characterRotations : List (String × ℚ)
  characterPositions : List (String × (ℚ × ℚ))
  generatedContent : Option GeneratedContent
deriving DecidableEq

/-- `handleCharacterSelect` (`src/App.tsx` lines 135-141): toggle an id in
the selection; deselecting filters it out of `selectedCharacterIds`, a new
selection is appended at the end (top layer).  No other state field is
touched. -/
def handleCharacterSelect (s : AppState) (id : String) : AppState :=
  if id ∈ s.selectedCharacterIds then
    { s with selectedCharacterIds := s.selectedCharacterIds.filter (fun charId => charId != id) }
  else
    { s with selectedCharacterIds := s.selectedCharacterIds ++ [id] }

/-- `handleDeleteCharacter` (`src/App.tsx` lines 177-180): remove the
character from the library and from the selection.  No other state field is
touched. -/
def handleDeleteCharacter (s : AppState) (id : String) : AppState :=
  { s with
    characters := s.characters.filter (fun c => c.id != id)
    selectedCharacterIds := s.selectedCharacterIds.filter (fun cid => cid != id) }

/-- The new `Scene` record literal built by `handleSaveScene`
(`src/App.tsx` lines 199-210). -/
def newSceneOf (s : AppState) (name newId : String) (now : Nat) : Scene :=
  { id := newId
    name := name
    characterIds := s.selectedCharacterIds
    scenePrompt := s.scenePrompt
    createdAt := now
    soundEffect := s.sceneSoundEffect
    rotations := some s.characterRotations
    positions := some s.characterPositions
    generatedContent := s.generatedContent }

/-- The updated `Scene` record literal (`{...existingScene, ...}`,
`src/App.tsx` lines 188-196). -/
def updatedSceneOf (existingScene : Scene) (s : AppState) : Scene :=
  { existingScene with
    characterIds := s.selectedCharacterIds
    scenePrompt := s.scenePrompt
    soundEffect := s.sceneSoundEffect
    rotations := some s.characterRotations
    positions := some s.characterPositions
    generatedContent := s.generatedContent }

/-- `handleSaveScene` (`src/App.tsx` lines 182-214).  `newId` models
`crypto.randomUUID()` and `now` models `Date.now()`, both environmental.
If a scene with the current id exists under the same name it is updated in
place, otherwise a new scene is prepended and becomes current. -/
def handleSaveScene (s : AppState) (name : String) (newId : String) (now : Nat) : AppState :=
  match s.scenes.find? (fun sc => s.currentSceneId == some sc.id) with
  | some existingScene =>
    if existingScene.name = name then
      { s with
        scenes := s.scenes.map
          (fun sc => if s.currentSceneId == some sc.id then updatedSceneOf existingScene s else sc) }
    else
      { s with
        scenes := newSceneOf s name newId now :: s.scenes
        currentSceneId := some newId }
  | none =>
    { s with
      scenes := newSceneOf s name newId now :: s.scenes
      currentSceneId := some newId }

/-- `handleLoadScene` (`src/App.tsx` lines 216-230): restore the editing
state from a scene; missing rotation/position maps default to empty
(`scene.rotations || \x7b\x7d`). -/
def handleLoadScene (s : AppState) (scene : Scene) : AppState :=
  { s with
    selectedCharacterIds := scene.characterIds
    scenePrompt := scene.scenePrompt
    sceneSoundEffect := scene.soundEffect
    characterRotations := scene.rotations.getD []
    characterPositions := scene.positions.getD []
    generatedContent := scene.generatedContent
    currentSceneId := some scene.id }

/-- `LayerManager.handleDrop` (`src/unnamed/part_001` lines 35-53):
drag-and-drop reorder.  The UI list is the reverse of the canonical
back-to-front sequence; the dragged element is spliced out and spliced back
in at the drop target's index, then the list is reversed back.  A missing
dragged id (the `!draggedItemId` falsy guard) or dropping an id onto itself
is a no-op, as is an id not found in the list (`findIndex === -1`). -/
def handleDrop (chars : List Character) (dragged target : String) : List Character :=
  if dragged = "" ∨ dragged = target then chars
  else
    let cur := chars.reverse
    let draggedIndex := cur.findIdx fun c => c.id == dragged
    let targetIndex := cur.findIdx fun c => c.id == target
    if draggedIndex = cur.length ∨ targetIndex = cur.length then chars
    else
      match cur[draggedIndex]? with
      | none => chars
      | some draggedItem =>
        let removed := cur.take draggedIndex ++ cur.drop (draggedIndex + 1)
        (removed.take targetIndex ++ draggedItem :: removed.drop targetIndex).reverse

/-! ### Image-preprocessing geometry (`processCharacterImage`, part_000 lines 92-135)

`processCharacterImage` first resizes the decoded image so that neither
dimension exceeds `maxSize` (exact rational arithmetic, modelled over `ℚ`),
then sizes the output canvas to the bounding box of the scaled rectangle
rotated by `rotation` degrees (modelled over `ℝ`). -/

/-- The resize step (part_000 lines 102-107): scale by
`min (maxSize / width) (maxSize / height)` only when a dimension exceeds
`maxSize`. -/
def resizeDims (width height maxSize : ℚ) : ℚ × ℚ :=
  if width > maxSize ∨ height > maxSize then
    let scale := min (maxSize / width) (maxSize / height)
    (width * scale, height * scale)
  else (width, height)

/-- Rotation-aware canvas sizing (part_000 lines 109-116, identically
`rotateImage` in `geminiService.ts` lines 57-61): the canvas is the bounding
box `(w·|cos θ| + h·|sin θ|, w·|sin θ| + h·|cos θ|)` of the `w × h`
rectangle rotated by `rotation` degrees, `θ = rotation·π/180`. -/
noncomputable def boundingBoxDims (width height rotation : ℝ) : ℝ × ℝ :=
  let rad := rotation * Real.pi / 180
  let s := |Real.sin rad|
  let c := |Real.cos rad|
  (width * c + height * s, width * s + height * c)

/-- Output canvas dimensions of `processCharacterImage` for a source image
that decoded to `width × height`: resize then rotation-aware bounding
box. -/
noncomputable def processedDims (width height : ℚ) (rotation : ℝ) (maxSize : ℚ) : ℝ × ℝ :=
  let p := resizeDims width height maxSize
  boundingBoxDims (p.1 : ℝ) (p.2 : ℝ) rotation

/-! ### Byte-level preprocessing result and the data-URL match

The byte-level outcome of `processCharacterImage` depends only on the
browser environment: whether the image decodes (`img.onload` vs
`img.onerror`), whether a 2d context is available, and the base64 payload
`canvas.toDataURL('image/png')` produces.  These are modelled as a
`PreprocessEnv`.  The rotation and max-size arguments only influence the
pixel geometry, which is modelled separately by `processedDims` above. -/

/-- Browser environment of one `processCharacterImage` call. -/
structure PreprocessEnv where
  decoded : Bool
  ctx : Bool
  png : List Char
deriving DecidableEq

/-- Characters of `canvas.toDataURL('image/png')` output before the
payload. -/
def pngHead : List Char := "data:image/png;base64,".data

/-- Byte-level result of `processCharacterImage` (part_000 lines 92-135):
on decode failure or context-acquisition failure the original string is
returned unchanged, otherwise the canvas is exported as a PNG data URL. -/
def processCharacterImage (env : PreprocessEnv) (base64Str : String) : String :=
  if env.decoded then
    if env.ctx then String.mk (pngHead ++ env.png) else base64Str
  else base64Str

/-- A character that a JS regex `.` (no `s` flag) matches: anything but a
line terminator. -/
def isDotChar (c : Char) : Bool :=
  c != Char.ofNat 10 && c != Char.ofNat 13 && c != Char.ofNat 8232 && c != Char.ofNat 8233

/-- The literal `;base64,` of the data-URL regex. -/
def base64Marker : List Char := ";base64,".data

/-- The literal `data:` head of the data-URL regex. -/
def dataHead : List Char := "data:".data

/-- Whether splitting the post-`data:` remainder at index `i` satisfies
`(.+);base64,(.+)$`: a nonempty dot-matched first group, the `;base64,`
literal, and a nonempty dot-matched second group reaching the end. -/
def validBase64Split (rest : List Char) (i : Nat) : Bool :=
  decide (1 ≤ i) && (rest.take i).all isDotChar && base64Marker.isPrefixOf (rest.drop i) &&
    !(rest.drop (i + base64Marker.length)).isEmpty &&
    (rest.drop (i + base64Marker.length)).all isDotChar

/-- `imageUrl.match(/^data:(.+);base64,(.+)$/)` (part_000 line 170),
returning the two capture groups.  The first `(.+)` is greedy, so the split
with the largest first group is taken. -/
def dataUrlMatch (s : String) : Option (List Char × List Char) :=
  if dataHead.isPrefixOf s.data then
    match ((List.range ((s.data.drop dataHead.length).length + 1)).filter
        (validBase64Split (s.data.drop dataHead.length))).getLast? with
    | some i => some ((s.data.drop dataHead.length).take i,
        (s.data.drop dataHead.length).drop (i + base64Marker.length))
    | none => none
  else none

/-! ### Layering narration and the final prompt (part_000 lines 183-201) -/

/-- The per-character layer descriptions (part_000 lines 187-191): index 0
is in the background, the last index in the foreground, interior characters
are behind their successor and in front of their predecessor. -/
def layerDescriptions (names : List String) : List String :=
  names.enum.map fun p =>
    if p.1 = 0 then p.2 ++ " is in the background"
    else if p.1 = names.length - 1 then p.2 ++ " is in the foreground"
    else p.2 ++ " is behind " ++ (names[p.1 + 1]?.getD "") ++ " and in front of " ++
      (names[p.1 - 1]?.getD "")

/-- `layeringInstruction` (part_000 lines 184-193): empty unless there is
more than one character, otherwise the descriptions joined with `. ` and
wrapped. -/
def layeringInstruction (names : List String) : String :=
  if 1 < names.length then
    "Pay close attention to the layering: " ++ String.intercalate ". " (layerDescriptions names)
      ++ ". "
  else ""

/-- `fullPrompt` assembly (part_000 lines 195-199): character count,
layering instruction, directive text, appearance instruction, and the
transparency instruction when the directive requested it. -/
def fullScenePrompt (chars : List Character) (finalPrompt : String)
    (explicitTransparent : Bool) : String :=
  let base := "Create a new scene featuring the " ++ toString chars.length ++
    " character(s) from the provided image(s). " ++
    layeringInstruction (chars.map fun c => c.name) ++
    "Scene details: " ++ finalPrompt ++
    ". Maintain the characters' appearance and style as closely as possible."
  if explicitTransparent then
    base ++ " The background should be transparent or solid white to easily isolate the subjects."
  else base

/-! ### JSON directive parsing (part_000 lines 140-157)

`generateScene` runs `JSON.parse` on the raw scene prompt inside a
`try/catch`; on success, a truthy `prompt` field replaces the prompt text
and truthy `transparent_background` / `progression_text` fields set the
transparency flag and the progress caption.  On any parse failure the raw
string is used unchanged.  `JSON.parse` is a platform builtin (not in the
repository); `jsonParse` below models it following the JSON grammar. -/

/-- JSON values.  Numbers are modelled as exact rationals (JS parses them
to binary doubles; none of the verified properties depend on numeric
values). -/
inductive JsonValue where
  | null : JsonValue
  | bool (b : Bool) : JsonValue
  | num (q : ℚ) : JsonValue
  | str (s : List Char) : JsonValue
  | arr (elems : List JsonValue) : JsonValue
  | obj (fields : List (List Char × JsonValue)) : JsonValue

/-- `"` -/
def quoteChar : Char := Char.ofNat 34
/-- `\` -/
def backslashChar : Char := Char.ofNat 92
/-- opening curly brace -/
def lbraceChar : Char := Char.ofNat 123
/-- closing curly brace -/
def rbraceChar : Char := Char.ofNat 125
/-- `[` -/
def lbrackChar : Char := Char.ofNat 91
/-- `]` -/
def rbrackChar : Char := Char.ofNat 93

/-- JSON whitespace. -/
def isJsonWs (c : Char) : Bool :=
  c == ' ' || c == Char.ofNat 9 || c == Char.ofNat 10 || c == Char.ofNat 13

/-- Drop leading JSON whitespace. -/
def skipWs : List Char → List Char
  | [] => []
  | c :: cs => if isJsonWs c then skipWs cs else c :: cs

/-- Value of a hex digit. -/
def hexVal (c : Char) : Option Nat :=
  if '0' ≤ c ∧ c ≤ '9' then some (c.toNat - 48)
  else if 'a' ≤ c ∧ c ≤ 'f' then some (c.toNat - 87)
  else if 'A' ≤ c ∧ c ≤ 'F' then some (c.toNat - 55)
  else none

/-- Single-character JSON string escapes. -/
def escapeChar (c : Char) : Option Char :=
  if c = quoteChar then some quoteChar
  else if c = backslashChar then some backslashChar
  else if c = '/' then some '/'
  else if c = 'b' then some (Char.ofNat 8)
  else if c = 'f' then some (Char.ofNat 12)
  else if c = 'n' then some (Char.ofNat 10)
  else if c = 'r' then some (Char.ofNat 13)
  else if c = 't' then some (Char.ofNat 9)
  else none

/-- Parse the body of a JSON string after the opening quote, returning the
decoded characters and the remaining input. -/
def parseStringBody : Nat → List Char → Option (List Char × List Char)
  | 0, _ => none
  | _, [] => none
  | fuel + 1, c :: cs =>
    if c = quoteChar then some ([], cs)
    else if c = backslashChar then
      match cs with
      | [] => none
      | e :: cs2 =>
        if e = 'u' then
          match cs2 with
          | a :: b :: c3 :: d :: rest =>
            match hexVal a, hexVal b, hexVal c3, hexVal d with
            | some va, some vb, some vc, some vd =>
              (parseStringBody fuel rest).map fun r =>
                (Char.ofNat (va * 4096 + vb * 256 + vc * 16 + vd) :: r.1, r.2)
            | _, _, _, _ => none
          | _ => none
        else
          match escapeChar e with
          | some ec => (parseStringBody fuel cs2).map fun r => (ec :: r.1, r.2)
          | none => none
    else if c.toNat < 32 then none
    else (parseStringBody fuel cs).map fun r => (c :: r.1, r.2)

/-- Decimal digit value. -/
def digitVal (c : Char) : Option Nat :=
  if '0' ≤ c ∧ c ≤ '9' then some (c.toNat - 48) else none

/-- Take the maximal run of leading decimal digits. -/
def takeDigits : List Char → List Nat × List Char
  | [] => ([], [])
  | c :: cs =>
    match digitVal c with
    | some v =>
      let r := takeDigits cs
      (v :: r.1, r.2)
    | none => ([], c :: cs)

/-- Value of a digit run. -/
def digitsToNat (ds : List Nat) : Nat := ds.foldl (fun acc d => acc * 10 + d) 0

/-- Parse an optional JSON fraction part `(\.[0-9]+)?`. -/
def parseNumberFrac (s : List Char) : Option (List Nat × List Char) :=
  match s with
  | c :: cs =>
    if c = '.' then
      let r := takeDigits cs
      if r.1.isEmpty then none else some r
    else some ([], s)
  | [] => some ([], s)

/-- Parse an optional JSON exponent part `([eE][+-]?[0-9]+)?`, yielding the
signed exponent (`0` when absent). -/
def parseNumberExp (s : List Char) : Option (Int × List Char) :=
  match s with
  | c :: cs =>
    if c = 'e' ∨ c = 'E' then
      let (esign, cs2) : Int × List Char :=
        match cs with
        | d :: ds => if d = '+' then (1, ds) else if d = '-' then (-1, ds) else (1, cs)
        | [] => (1, cs)
      let r := takeDigits cs2
      if r.1.isEmpty then none else some (esign * (digitsToNat r.1 : Int), r.2)
    else some (0, s)
  | [] => some (0, s)

/-- Parse a JSON number: `-?(0|[1-9][0-9]*)(\.[0-9]+)?([eE][+-]?[0-9]+)?`. -/
def parseNumber (s : List Char) : Option (ℚ × List Char) :=
  let (sign, s1) : ℚ × List Char :=
    match s with
    | c :: cs => if c = '-' then (-1, cs) else (1, s)
    | [] => (1, s)
  let (intDigits, s2) := takeDigits s1
  if intDigits.isEmpty then none
  else if 2 ≤ intDigits.length ∧ intDigits.headD 1 = 0 then none
  else
    match parseNumberFrac s2 with
    | none => none
    | some (fracDigits, s3) =>
      match parseNumberExp s3 with
      | none => none
      | some (e, rest) =>
        let mantissa : ℚ :=
          (digitsToNat intDigits : ℚ) + (digitsToNat fracDigits : ℚ) / (10 : ℚ) ^ fracDigits.length
        some (sign * mantissa * (10 : ℚ) ^ e, rest)

mutual

/-- Parse one JSON value, returning it with the remaining input. -/
def parseJsonValue : Nat → List Char → Option (JsonValue × List Char)
  | 0, _ => none
  | fuel + 1, s =>
    match skipWs s with
    | [] => none
    | c :: cs =>
      if c = lbraceChar then
        match skipWs cs with
        | d :: ds =>
          if d = rbraceChar then some (JsonValue.obj [], ds)
          else (parseJsonMembers fuel (d :: ds)).map fun r => (JsonValue.obj r.1, r.2)
        | [] => none
      else if c = lbrackChar then
        match skipWs cs with
        | d :: ds =>
          if d = rbrackChar then some (JsonValue.arr [], ds)
          else (parseJsonElements fuel (d :: ds)).map fun r => (JsonValue.arr r.1, r.2)
        | [] => none
      else if c = quoteChar then
        (parseStringBody fuel cs).map fun r => (JsonValue.str r.1, r.2)
      else if "true".data.isPrefixOf (c :: cs) then
        some (JsonValue.bool true, (c :: cs).drop 4)
      else if "false".data.isPrefixOf (c :: cs) then
        some (JsonValue.bool false, (c :: cs).drop 5)
      else if "null".data.isPrefixOf (c :: cs) then
        some (JsonValue.null, (c :: cs).drop 4)
      else
        (parseNumber (c :: cs)).map fun r => (JsonValue.num r.1, r.2)

/-- Parse the members of a JSON object after its opening brace, up to and
including the closing brace. -/
def parseJsonMembers : Nat → List Char → Option (List (List Char × JsonValue) × List Char)
  | 0, _ => none
  | fuel + 1, s =>
    match skipWs s with
    | c :: cs =>
      if c = quoteChar then
        match parseStringBody fuel cs with
        | none => none
        | some (key, rest1) =>
          match skipWs rest1 with
          | d :: ds =>
            if d = ':' then
              match parseJsonValue fuel ds with
              | none => none
              | some (v, rest2) =>
                match skipWs rest2 with
                | e :: es =>
                  if e = ',' then
                    (parseJsonMembers fuel es).map fun r => ((key, v) :: r.1, r.2)
                  else if e = rbraceChar then some ([(key, v)], es)
                  else none
                | [] => none
            else none
          | [] => none
      else none
    | [] => none

/-- Parse the elements of a JSON array after its opening bracket, up to and
including the closing bracket. -/
def parseJsonElements : Nat → List Char → Option (List JsonValue × List Char)
  | 0, _ => none
  | fuel + 1, s =>
    match parseJsonValue fuel s with
    | none => none
    | some (v, rest) =>
      match skipWs rest with
      | e :: es =>
        if e = ',' then (parseJsonElements fuel es).map fun r => (v :: r.1, r.2)
        else if e = rbrackChar then some ([v], es)
        else none
      | [] => none

end

/-- Model of the `JSON.parse` builtin: parse one value and require only
trailing whitespace after it; any failure (the `catch` branch in the
source) is `none`. -/
def jsonParse (s : String) : Option JsonValue :=
  match parseJsonValue (s.length + 1) s.data with
  | some (v, rest) => if (skipWs rest).isEmpty then some v else none
  | none => none

/-- JS truthiness of a parsed JSON value (`if (json.prompt)` etc.): `null`,
`false`, `0` and the empty string are falsy, objects and arrays are always
truthy. -/
def truthy : JsonValue → Bool
  | JsonValue.null => false
  | JsonValue.bool b => b
  | JsonValue.num q => q != 0
  | JsonValue.str s => !s.isEmpty
  | JsonValue.arr _ => true
  | JsonValue.obj _ => true

/-- JS property access `json.key` on a parse result: defined only on
objects; with duplicate keys the last occurrence wins, as in `JSON.parse`. -/
def getField (v : JsonValue) (key : List Char) : Option JsonValue :=
  match v with
  | JsonValue.obj fields => ((fields.filter fun p => p.1 == key).getLast?).map fun p => p.2
  | _ => none

mutual

/-- JS string coercion of a parsed JSON value, as used when a non-string
`prompt` field is interpolated into the final prompt.  (Numbers use the
exact rational representation; JS would print the double.) -/
def jsToString : JsonValue → String
  | JsonValue.null => "null"
  | JsonValue.bool b => if b then "true" else "false"
  | JsonValue.num q => toString q
  | JsonValue.str s => String.mk s
  | JsonValue.arr elems => String.intercalate "," (jsToStringList elems)
  | JsonValue.obj _ => "[object Object]"

/-- JS string coercion of each element of an array. -/
def jsToStringList : List JsonValue → List String
  | [] => []
  | v :: vs => jsToString v :: jsToStringList vs

end

/-- The parsed scene directive: prompt text, transparency flag, optional
progress caption. -/
structure SceneDirective where
  text : String
  transparentBackground : Bool
  progressCaption : Option String
deriving DecidableEq

/-- `prompt` key. -/
def keyPrompt : List Char := "prompt".data
/-- `transparent_background` key. -/
def keyTransparent : List Char := "transparent_background".data
/-- `progression_text` key. -/
def keyProgression : List Char := "progression_text".data

/-- The directive parse at the top of `generateScene` (part_000 lines
140-157, same shape in `generateImageFromInput` lines 51-68): try
`JSON.parse`; on success with a truthy `prompt` field take that field as
the prompt text and read the `transparent_background` and
`progression_text` flags; otherwise use the raw string unchanged.  The
`try/catch` makes this total. -/
def sceneDirective (raw : String) : SceneDirective :=
  match jsonParse raw with
  | none => { text := raw, transparentBackground := false, progressCaption := none }
  | some v =>
    match getField v keyPrompt with
    | some p =>
      if truthy p then
        { text := jsToString p
          transparentBackground :=
            match getField v keyTransparent with
            | some t => truthy t
            | none => false
          progressCaption :=
            match getField v keyProgression with
            | some g => if truthy g then some (jsToString g) else none
            | none => none }
      else { text := raw, transparentBackground := false, progressCaption := none }
    | none => { text := raw, transparentBackground := false, progressCaption := none }

/-! ### Scene composition (part_000 `generateScene`, lines 137-218) -/

/-- A part of the generation request: an inline image (mime type and base64
data, the regex capture groups) or the final text prompt. -/
inductive GPart where
  | image (mimeType data : List Char) : GPart
  | text (s : String) : GPart
deriving DecidableEq

/-- The image part contributed by one character (part_000 lines 162-181):
preprocess the image, then push an inline-data part only when the result
matches the data-URL regex; otherwise the character contributes nothing. -/
def imagePartOfChar (c : Character) (env : PreprocessEnv) : Option GPart :=
  (dataUrlMatch (processCharacterImage env c.imageUrl)).map fun md => GPart.image md.1 md.2

/-- The request parts assembled by `generateScene` (part_000 lines
137-201): parse the directive, add one inline image part per character
whose preprocessed URL matches the data-URL regex (in layer order), then
append the assembled text prompt.  `envs` carries the browser environment
of each character's `processCharacterImage` call, positionally. -/
def generateScene (chars : List Character) (envs : List PreprocessEnv)
    (scenePrompt : String) : List GPart :=
  let directive := sceneDirective scenePrompt
  ((chars.zip envs).filterMap fun p => imagePartOfChar p.1 p.2) ++
    [GPart.text (fullScenePrompt chars directive.text directive.transparentBackground)]

/-! ## Helper lemmas -/

/-- Resize bounds shared by the preprocessing claims: with positive inputs
neither resized dimension exceeds `maxSize` or the corresponding source
dimension, and both stay nonnegative. -/
theorem resizeDims_bounds (w h m : ℚ) (hw : 0 < w) (hh : 0 < h) (hm : 0 < m) :
    (resizeDims w h m).1 ≤ m ∧ (resizeDims w h m).2 ≤ m ∧
    0 ≤ (resizeDims w h m).1 ∧ 0 ≤ (resizeDims w h m).2 ∧
    (resizeDims w h m).1 ≤ w ∧ (resizeDims w h m).2 ≤ h := by
  by_cases hc : w > m ∨ h > m
  · have hscale0 : 0 ≤ min (m / w) (m / h) :=
      le_min (div_nonneg hm.le hw.le) (div_nonneg hm.le hh.le)
    have hscale1 : min (m / w) (m / h) ≤ 1 := by
      rcases hc with hc | hc
      · exact le_trans (min_le_left _ _) (le_of_lt ((div_lt_one hw).mpr hc))
      · exact le_trans (min_le_right _ _) (le_of_lt ((div_lt_one hh).mpr hc))
    have hW : w * min (m / w) (m / h) ≤ m := by
      calc w * min (m / w) (m / h) ≤ w * (m / w) :=
            mul_le_mul_of_nonneg_left (min_le_left _ _) hw.le
        _ = m := by field_simp
    have hH : h * min (m / w) (m / h) ≤ m := by
      calc h * min (m / w) (m / h) ≤ h * (m / h) :=
            mul_le_mul_of_nonneg_left (min_le_right _ _) hh.le
        _ = m := by field_simp
    have hWw : w * min (m / w) (m / h) ≤ w := by
      calc w * min (m / w) (m / h) ≤ w * 1 := mul_le_mul_of_nonneg_left hscale1 hw.le
        _ = w := mul_one w
    have hHh : h * min (m / w) (m / h) ≤ h := by
      calc h * min (m / w) (m / h) ≤ h * 1 := mul_le_mul_of_nonneg_left hscale1 hh.le
        _ = h := mul_one h
    simp only [resizeDims, if_pos hc]
    exact ⟨hW, hH, mul_nonneg hw.le hscale0, mul_nonneg hh.le hscale0, hWw, hHh⟩
  · push_neg at hc
    have hcond : ¬(w > m ∨ h > m) := not_or.mpr ⟨not_lt.mpr hc.1, not_lt.mpr hc.2⟩
    simp only [resizeDims, if_neg hcond]
    exact ⟨hc.1, hc.2, hw.le, hh.le, le_refl w, le_refl h⟩

/-- The taxicab bound on a point of the unit circle, used for the amended
max-edge invariant. -/
theorem abs_cos_add_abs_sin_le_sqrt_two (x : ℝ) :
    |Real.cos x| + |Real.sin x| ≤ Real.sqrt 2 := by
  apply Real.le_sqrt_of_sq_le
  have hpy := Real.sin_sq_add_cos_sq x
  nlinarith [sq_abs (Real.cos x), sq_abs (Real.sin x),
    sq_nonneg (|Real.cos x| - |Real.sin x|), abs_nonneg (Real.cos x), abs_nonneg (Real.sin x)]

/-! ## Claims -/

/-- Concrete editing state used as the failing input for C3 and as the
witness input for the amended statement. -/
def sampleState : AppState :=
  { characters := [⟨"A", "Alice", "u", "p"⟩]
    scenes := []
    currentSceneId := none
    selectedCharacterIds := ["A"]
    scenePrompt := "park"
    sceneSoundEffect := none
    characterRotations := [("A", 45)]
    characterPositions := [("A", (10, 20))]
    generatedContent := none }

/-- C3 counterexample: deselecting (and likewise deleting) the character
`"A"` removes it from the layer order but its rotation and position entries
survive unchanged in the transform maps, contradicting the claimed
synchronisation. -/
theorem deselect_and_delete_retain_transform_entries :
    ((handleCharacterSelect sampleState "A").selectedCharacterIds = [] ∧
      (handleCharacterSelect sampleState "A").characterRotations = [("A", (45 : ℚ))] ∧
      (handleCharacterSelect sampleState "A").characterPositions =
        [("A", ((10 : ℚ), (20 : ℚ)))]) ∧
    ((handleDeleteCharacter sampleState "A").selectedCharacterIds = [] ∧
      (handleDeleteCharacter sampleState "A").characterRotations = [("A", (45 : ℚ))] ∧
      (handleDeleteCharacter sampleState "A").characterPositions =
        [("A", ((10 : ℚ), (20 : ℚ)))]) := by
  decide

/-- C3 (amended): deselecting a selected character or deleting a character
removes its id from the layer order, but both operations leave the rotation
and position maps entirely unchanged, so a removed id keeps any transform
entries it had. -/
theorem removal_leaves_transform_maps_unchanged (s : AppState) (id : String) :
    (handleCharacterSelect s id).characterRotations = s.characterRotations ∧
    (handleCharacterSelect s id).characterPositions = s.characterPositions ∧
    (id ∈ s.selectedCharacterIds → id ∉ (handleCharacterSelect s id).selectedCharacterIds) ∧
    (handleDeleteCharacter s id).characterRotations = s.characterRotations ∧
    (handleDeleteCharacter s id).characterPositions = s.characterPositions ∧
    id ∉ (handleDeleteCharacter s id).selectedCharacterIds := by
  refine ⟨?_, ?_, ?_, rfl, rfl, ?_⟩
  · unfold handleCharacterSelect; split <;> rfl
  · unfold handleCharacterSelect; split <;> rfl
  · intro hmem
    simp only [handleCharacterSelect, if_pos hmem, List.mem_filter]
    simp
  · simp only [handleDeleteCharacter, List.mem_filter]
    simp

/-- Witness for the amended C3 at the concrete sample state. -/
theorem removal_leaves_transform_maps_unchanged_witness :
    "A" ∈ sampleState.selectedCharacterIds ∧
    (handleCharacterSelect sampleState "A").characterRotations =
      sampleState.characterRotations ∧
    "A" ∉ (handleCharacterSelect sampleState "A").selectedCharacterIds :=
  ⟨by decide, (removal_leaves_transform_maps_unchanged sampleState "A").1,
    (removal_leaves_transform_maps_unchanged sampleState "A").2.2.1 (by decide)⟩

/-- C8: saving the current editing state stores a scene from which
`handleLoadScene` reproduces the identical layer order, prompt string, and
rotation and position maps. -/
theorem save_then_load_roundtrip (s : AppState) (name newId : String) (now : Nat) :
    ∃ sc ∈ (handleSaveScene s name newId now).scenes,
      (handleLoadScene (handleSaveScene s name newId now) sc).selectedCharacterIds =
        s.selectedCharacterIds ∧
      (handleLoadScene (handleSaveScene s name newId now) sc).scenePrompt = s.scenePrompt ∧
      (handleLoadScene (handleSaveScene s name newId now) sc).characterRotations =
        s.characterRotations ∧
      (handleLoadScene (handleSaveScene s name newId now) sc).characterPositions =
        s.characterPositions := by
  unfold handleSaveScene
  cases hfind : s.scenes.find? (fun sc => s.currentSceneId == some sc.id) with
  | none =>
    exact ⟨newSceneOf s name newId now, List.mem_cons_self _ _, rfl, rfl, rfl, rfl⟩
  | some existingScene =>
    by_cases hname : existingScene.name = name
    · simp only [if_pos hname]
      refine ⟨updatedSceneOf existingScene s, ?_, rfl, rfl, rfl, rfl⟩
      have hmem := List.mem_of_find?_eq_some hfind
      have hpred := List.find?_some hfind
      exact List.mem_map.mpr ⟨existingScene, hmem, by rw [if_pos hpred]⟩
    · simp only [if_neg hname]
      exact ⟨newSceneOf s name newId now, List.mem_cons_self _ _, rfl, rfl, rfl, rfl⟩

/-- C9: the resize step never upscales, applies the scale factor
`min (maxEdge/width, maxEdge/height)` to both dimensions exactly when a
dimension exceeds `maxEdge` (bounding both results by `maxEdge` and
preserving the aspect ratio), and is the identity otherwise. -/
theorem resize_never_upscales (w h m : ℚ) (hw : 0 < w) (hh : 0 < h) (hm : 0 < m) :
    (resizeDims w h m).1 ≤ w ∧ (resizeDims w h m).2 ≤ h ∧
    (resizeDims w h m).1 * h = (resizeDims w h m).2 * w ∧
    ((w > m ∨ h > m) →
      (resizeDims w h m).1 = w * min (m / w) (m / h) ∧
      (resizeDims w h m).2 = h * min (m / w) (m / h) ∧
      (resizeDims w h m).1 ≤ m ∧ (resizeDims w h m).2 ≤ m) ∧
    ((w ≤ m ∧ h ≤ m) → resizeDims w h m = (w, h)) := by
  obtain ⟨hb1, hb2, _, _, hb5, hb6⟩ := resizeDims_bounds w h m hw hh hm
  refine ⟨hb5, hb6, ?_, ?_, ?_⟩
  · by_cases hc : w > m ∨ h > m
    · simp only [resizeDims, if_pos hc]; ring
    · simp only [resizeDims, if_neg hc]; ring
  · intro hc
    have e1 : (resizeDims w h m).1 = w * min (m / w) (m / h) := by
      simp only [resizeDims, if_pos hc]
    have e2 : (resizeDims w h m).2 = h * min (m / w) (m / h) := by
      simp only [resizeDims, if_pos hc]
    exact ⟨e1, e2, hb1, hb2⟩
  · intro ⟨h1, h2⟩
    have : ¬(w > m ∨ h > m) := by push_neg; exact ⟨h1, h2⟩
    simp only [resizeDims, if_neg this]

/-- Witness for C9 at a source exceeding the max edge on one side. -/
theorem resize_never_upscales_witness :
    (0 < (1024 : ℚ) ∧ 0 < (256 : ℚ) ∧ 0 < (512 : ℚ)) ∧
    (resizeDims 1024 256 512).1 ≤ 1024 ∧
    (resizeDims 1024 256 512).1 * 256 = (resizeDims 1024 256 512).2 * 1024 :=
  ⟨⟨by norm_num, by norm_num, by norm_num⟩,
    (resize_never_upscales 1024 256 512 (by norm_num) (by norm_num) (by norm_num)).1,
    (resize_never_upscales 1024 256 512 (by norm_num) (by norm_num) (by norm_num)).2.2.1⟩

/-- C5: a single character produces no layering narration; for two and
three characters the narration is exactly the specified sentences; and in
general, for ≥ 2 characters, the first is narrated as in the background,
the last as in the foreground, and each interior character as behind its
successor and in front of its predecessor, in sequence order. -/
theorem layering_narration_spec :
    (∀ a : String, layeringInstruction [a] = "") ∧
    layeringInstruction ["A", "B"] =
      "Pay close attention to the layering: " ++
        "A is in the background. B is in the foreground." ++ " " ∧
    layeringInstruction ["A", "B", "C"] =
      "Pay close attention to the layering: " ++
        "A is in the background. B is behind C and in front of A. C is in the foreground." ++
        " " ∧
    ∀ names : List String, 2 ≤ names.length →
      (layerDescriptions names).length = names.length ∧
      (layerDescriptions names)[0]? = some ((names[0]?.getD "") ++ " is in the background") ∧
      (layerDescriptions names)[names.length - 1]? =
        some ((names[names.length - 1]?.getD "") ++ " is in the foreground") ∧
      ∀ i, 0 < i → i + 1 < names.length →
        (layerDescriptions names)[i]? =
          some ((names[i]?.getD "") ++ " is behind " ++ (names[i + 1]?.getD "") ++
            " and in front of " ++ (names[i - 1]?.getD "")) := by
  refine ⟨?_, by decide, by decide, ?_⟩
  · intro a
    simp [layeringInstruction]
  · intro names h2
    have hlen : (layerDescriptions names).length = names.length := by
      simp [layerDescriptions]
    have hidx : ∀ i, i < names.length →
        (layerDescriptions names)[i]? = (names[i]?).map fun a =>
          if i = 0 then a ++ " is in the background"
          else if i = names.length - 1 then a ++ " is in the foreground"
          else a ++ " is behind " ++ (names[i + 1]?.getD "") ++ " and in front of " ++
            (names[i - 1]?.getD "") := by
      intro i hi
      simp [layerDescriptions, List.getElem?_enum, List.getElem?_eq_getElem hi]
    refine ⟨hlen, ?_, ?_, ?_⟩
    · have h0 : 0 < names.length := by omega
      have hne : ¬(0 = names.length - 1) := by omega
      rw [hidx 0 h0, List.getElem?_eq_getElem h0]
      simp
    · have hl : names.length - 1 < names.length := by omega
      have hne : ¬(names.length - 1 = 0) := by omega
      rw [hidx (names.length - 1) hl, List.getElem?_eq_getElem hl]
      simp [hne]
    · intro i hi0 hiL
      have hi : i < names.length := by omega
      have hne0 : ¬(i = 0) := by omega
      have hneL : ¬(i = names.length - 1) := by omega
      rw [hidx i hi, List.getElem?_eq_getElem hi]
      simp [hne0, hneL]

/-- Witness for the general part of C5 at the three-character sequence. -/
theorem layering_narration_spec_witness :
    2 ≤ (["A", "B", "C"] : List String).length ∧
    (layerDescriptions ["A", "B", "C"]).length = (["A", "B", "C"] : List String).length ∧
    (layerDescriptions ["A", "B", "C"])[1]? =
      some (((["A", "B", "C"] : List String)[1]?.getD "") ++ " is behind " ++
        ((["A", "B", "C"] : List String)[2]?.getD "") ++ " and in front of " ++
        ((["A", "B", "C"] : List String)[0]?.getD "")) :=
  ⟨by decide, (layering_narration_spec.2.2.2 ["A", "B", "C"] (by decide)).1,
    (layering_narration_spec.2.2.2 ["A", "B", "C"] (by decide)).2.2.2 1 (by decide) (by decide)⟩

/-- C7: the directive parse is total — any input that is not JSON falls
back to the whole raw string with the transparency flag false — and the
two specified examples parse as stated. -/
theorem directive_parse_total :
    (∀ raw : String, (jsonParse raw).isNone = true →
      sceneDirective raw = ⟨raw, false, none⟩) ∧
    sceneDirective "plain text" = ⟨"plain text", false, none⟩ ∧
    sceneDirective "\x7b\"prompt\":\"x\",\"transparent_background\":true\x7d" =
      ⟨"x", true, none⟩ := by
  refine ⟨?_, by decide, by decide⟩
  intro raw h
  cases hj : jsonParse raw with
  | none => simp only [sceneDirective, hj]
  | some v => rw [hj] at h; simp at h

/-- Witness for C7's fallback clause at the concrete non-JSON input. -/
theorem directive_parse_total_witness :
    (jsonParse "plain text").isNone = true ∧
    sceneDirective "plain text" = ⟨"plain text", false, none⟩ :=
  ⟨by decide, directive_parse_total.1 "plain text" (by decide)⟩

/-- C4: the preprocessor's output canvas is the bounding box
`(w·|cos θ| + h·|sin θ|, w·|sin θ| + h·|cos θ|)` of the scaled rectangle,
with `θ` the rotation converted to radians; at 0° and 180° it equals the
scaled dimensions and at 90° and 270° the dimensions swap. -/
theorem bounding_box_formula (w h rotation : ℝ) :
    boundingBoxDims w h rotation =
      (w * |Real.cos (rotation * Real.pi / 180)| + h * |Real.sin (rotation * Real.pi / 180)|,
        w * |Real.sin (rotation * Real.pi / 180)| + h * |Real.cos (rotation * Real.pi / 180)|) ∧
    boundingBoxDims w h 0 = (w, h) ∧
    boundingBoxDims w h 180 = (w, h) ∧
    boundingBoxDims w h 90 = (h, w) ∧
    boundingBoxDims w h 270 = (h, w) := by
  have h0 : (0 : ℝ) * Real.pi / 180 = 0 := by ring
  have h180 : (180 : ℝ) * Real.pi / 180 = Real.pi := by ring
  have h90 : (90 : ℝ) * Real.pi / 180 = Real.pi / 2 := by ring
  have h270 : (270 : ℝ) * Real.pi / 180 = Real.pi + Real.pi / 2 := by ring
  refine ⟨rfl, ?_, ?_, ?_, ?_⟩
  · simp [boundingBoxDims, h0]
  · simp [boundingBoxDims, h180]
  · simp [boundingBoxDims, h90]
  · simp [boundingBoxDims, h270, Real.sin_add, Real.cos_add]

/-- C2 counterexample: a 512×512 source rotated by 45° under max edge 512
yields an output canvas width of `512·√2 > 512`, so the preprocessed
dimensions are not bounded by the maximum edge length. -/
theorem processed_dims_exceed_max_edge :
    ¬((processedDims 512 512 45 512).1 ≤ (512 : ℝ)) := by
  have hres : resizeDims 512 512 512 = (512, 512) := by
    norm_num [resizeDims]
  have hrad : (45 : ℝ) * Real.pi / 180 = Real.pi / 4 := by ring
  have hval : (processedDims 512 512 45 512).1 = 512 * Real.sqrt 2 := by
    simp only [processedDims, hres, boundingBoxDims, hrad, Real.cos_pi_div_four,
      Real.sin_pi_div_four]
    rw [abs_of_nonneg (by positivity)]
    push_cast
    ring
  rw [hval]
  intro hle
  have hsq : (1 : ℝ) < Real.sqrt 2 := by
    apply Real.lt_sqrt_of_sq_lt
    norm_num
  nlinarith

/-- C2 (amended): with positive source dimensions and max edge, each output
canvas dimension of the preprocessor is at most `√2` times the max edge
(the scaled dimensions themselves are bounded by the max edge; the rotation
bounding box can expand them by at most `√2`). -/
theorem processed_dims_le_sqrt_two_mul_max_edge (w h m : ℚ) (rot : ℝ)
    (hw : 0 < w) (hh : 0 < h) (hm : 0 < m) :
    (processedDims w h rot m).1 ≤ Real.sqrt 2 * (m : ℝ) ∧
    (processedDims w h rot m).2 ≤ Real.sqrt 2 * (m : ℝ) := by
  obtain ⟨hb1, hb2, hb3, hb4, _, _⟩ := resizeDims_bounds w h m hw hh hm
  set p := resizeDims w h m with hp
  have hcast1 : ((p.1 : ℚ) : ℝ) ≤ (m : ℝ) := by exact_mod_cast hb1
  have hcast2 : ((p.2 : ℚ) : ℝ) ≤ (m : ℝ) := by exact_mod_cast hb2
  have hcast3 : (0 : ℝ) ≤ ((p.1 : ℚ) : ℝ) := by exact_mod_cast hb3
  have hcast4 : (0 : ℝ) ≤ ((p.2 : ℚ) : ℝ) := by exact_mod_cast hb4
  have habs := abs_cos_add_abs_sin_le_sqrt_two (rot * Real.pi / 180)
  have hmpos : (0 : ℝ) < (m : ℝ) := by exact_mod_cast hm
  have hcos : (0 : ℝ) ≤ |Real.cos (rot * Real.pi / 180)| := abs_nonneg _
  have hsin : (0 : ℝ) ≤ |Real.sin (rot * Real.pi / 180)| := abs_nonneg _
  constructor
  · show (p.1 : ℝ) * |Real.cos (rot * Real.pi / 180)| +
      (p.2 : ℝ) * |Real.sin (rot * Real.pi / 180)| ≤ Real.sqrt 2 * (m : ℝ)
    nlinarith
  · show (p.1 : ℝ) * |Real.sin (rot * Real.pi / 180)| +
      (p.2 : ℝ) * |Real.cos (rot * Real.pi / 180)| ≤ Real.sqrt 2 * (m : ℝ)
    nlinarith

/-- Witness for the amended C2 at a concrete 512×512 source with rotation
45° and max edge 512. -/
theorem processed_dims_le_sqrt_two_mul_max_edge_witness :
    0 < (512 : ℚ) ∧
    (processedDims 512 512 45 512).1 ≤ Real.sqrt 2 * ((512 : ℚ) : ℝ) :=
  ⟨by norm_num,
    (processed_dims_le_sqrt_two_mul_max_edge 512 512 512 45 (by norm_num) (by norm_num)
      (by norm_num)).1⟩

/-- Splicing an element out at `di` and back in at `ti` permutes the
list. -/
theorem splice_perm {α : Type} (cur : List α) (di ti : Nat) (x : α)
    (hx : cur[di]? = some x) :
    ((cur.take di ++ cur.drop (di + 1)).take ti ++
      x :: (cur.take di ++ cur.drop (di + 1)).drop ti).Perm cur := by
  have hdi : di < cur.length := by
    by_contra hcon
    push_neg at hcon
    rw [List.getElem?_eq_none hcon] at hx
    exact Option.noConfusion hx
  have hxval : cur[di] = x := by
    have hg := List.getElem?_eq_getElem hdi
    rw [hg] at hx
    exact Option.some.inj hx
  have hdecomp : cur.take di ++ x :: cur.drop (di + 1) = cur := by
    conv_rhs => rw [← List.take_append_drop di cur]
    congr 1
    rw [← List.getElem_cons_drop cur di hdi, hxval]
  have h1 : ((cur.take di ++ cur.drop (di + 1)).take ti ++
      x :: (cur.take di ++ cur.drop (di + 1)).drop ti).Perm
      (x :: (cur.take di ++ cur.drop (di + 1))) := by
    have hp : ((cur.take di ++ cur.drop (di + 1)).take ti ++
        x :: (cur.take di ++ cur.drop (di + 1)).drop ti).Perm
        (x :: ((cur.take di ++ cur.drop (di + 1)).take ti ++
          (cur.take di ++ cur.drop (di + 1)).drop ti)) := List.perm_middle
    rwa [List.take_append_drop] at hp
  have h2 : (x :: (cur.take di ++ cur.drop (di + 1))).Perm cur := by
    have hp : (cur.take di ++ x :: cur.drop (di + 1)).Perm
        (x :: (cur.take di ++ cur.drop (di + 1))) := List.perm_middle
    rw [hdecomp] at hp
    exact hp.symm
  exact h1.trans h2

/-- Splicing an element the filter rejects out at `di` and back in at `ti`
leaves the filtered list unchanged: the relative order of all other
elements is preserved. -/
theorem splice_filter {α : Type} (cur : List α) (di ti : Nat) (x : α) (p : α → Bool)
    (hx : cur[di]? = some x) (hpx : p x = false) :
    ((cur.take di ++ cur.drop (di + 1)).take ti ++
      x :: (cur.take di ++ cur.drop (di + 1)).drop ti).filter p = cur.filter p := by
  have hdi : di < cur.length := by
    by_contra hcon
    push_neg at hcon
    rw [List.getElem?_eq_none hcon] at hx
    exact Option.noConfusion hx
  have hxval : cur[di] = x := by
    have hg := List.getElem?_eq_getElem hdi
    rw [hg] at hx
    exact Option.some.inj hx
  have hdecomp : cur.take di ++ x :: cur.drop (di + 1) = cur := by
    conv_rhs => rw [← List.take_append_drop di cur]
    congr 1
    rw [← List.getElem_cons_drop cur di hdi, hxval]
  have hnpx : ¬ p x := by simp [hpx]
  have hstep1 : ((cur.take di ++ cur.drop (di + 1)).take ti ++
      x :: (cur.take di ++ cur.drop (di + 1)).drop ti).filter p =
      (cur.take di ++ cur.drop (di + 1)).filter p := by
    rw [List.filter_append, List.filter_cons_of_neg hnpx, ← List.filter_append,
      List.take_append_drop]
  have hstep2 : (cur.take di ++ cur.drop (di + 1)).filter p = cur.filter p := by
    conv_rhs => rw [← hdecomp]
    rw [List.filter_append, List.filter_append, List.filter_cons_of_neg hnpx]
  rw [hstep1, hstep2]

/-- C6: dragging `A` onto `C` in the back-to-front sequence `[A, B, C]`
yields `[B, C, A]`; and every drag-reorder permutes the id sequence
(membership unchanged, no duplicates introduced) while preserving the
relative order of all ids other than the dragged one. -/
theorem drag_reorder_spec :
    (handleDrop [⟨"A", "A", "", ""⟩, ⟨"B", "B", "", ""⟩, ⟨"C", "C", "", ""⟩] "A" "C").map
      (fun c => c.id) = ["B", "C", "A"] ∧
    ∀ (chars : List Character) (dragged target : String),
      ((handleDrop chars dragged target).map fun c => c.id).Perm
        (chars.map fun c => c.id) ∧
      ((handleDrop chars dragged target).map fun c => c.id).filter (fun x => x != dragged) =
        (chars.map fun c => c.id).filter (fun x => x != dragged) ∧
      ((chars.map fun c => c.id).Nodup →
        ((handleDrop chars dragged target).map fun c => c.id).Nodup) := by
  refine ⟨by decide, ?_⟩
  intro chars dragged target
  suffices hkey : (handleDrop chars dragged target).Perm chars ∧
      ((handleDrop chars dragged target).map fun c => c.id).filter (fun x => x != dragged) =
        (chars.map fun c => c.id).filter (fun x => x != dragged) by
    obtain ⟨hperm, hfil⟩ := hkey
    have hmap := hperm.map (fun c => c.id)
    exact ⟨hmap, hfil, fun hnd => hmap.nodup_iff.mpr hnd⟩
  unfold handleDrop
  by_cases hguard : dragged = "" ∨ dragged = target
  · rw [if_pos hguard]
    exact ⟨List.Perm.refl _, rfl⟩
  · rw [if_neg hguard]
    by_cases hidx : chars.reverse.findIdx (fun c => c.id == dragged) = chars.reverse.length ∨
        chars.reverse.findIdx (fun c => c.id == target) = chars.reverse.length
    · rw [if_pos hidx]
      exact ⟨List.Perm.refl _, rfl⟩
    · rw [if_neg hidx]
      push_neg at hidx
      set cur := chars.reverse with hcur
      set di := cur.findIdx (fun c => c.id == dragged) with hdie
      set ti := cur.findIdx (fun c => c.id == target) with htie
      have hdilt : di < cur.length := lt_of_le_of_ne (List.findIdx_le_length _) hidx.1
      have hxopt : cur[di]? = some (cur.get ⟨di, hdilt⟩) := List.getElem?_eq_getElem hdilt
      rw [hxopt]
      set x := cur.get ⟨di, hdilt⟩ with hxdef
      have hxid : x.id = dragged := by
        have hxopt2 : cur[cur.findIdx (fun c => c.id == dragged)]? = some x := by
          rw [← hdie]
          exact hxopt
        have hb := List.findIdx_of_getElem?_eq_some hxopt2
        simp only [] at hb
        exact eq_of_beq hb
      constructor
      · have hsp := splice_perm cur di ti x hxopt
        have hrev : ((cur.take di ++ cur.drop (di + 1)).take ti ++
            x :: (cur.take di ++ cur.drop (di + 1)).drop ti).reverse.Perm
            ((cur.take di ++ cur.drop (di + 1)).take ti ++
              x :: (cur.take di ++ cur.drop (di + 1)).drop ti) := List.reverse_perm _
        have hback : cur.Perm chars := by
          rw [hcur]; exact List.reverse_perm chars
        exact hrev.trans (hsp.trans hback)
      · have hmapped : ((cur.take di ++ cur.drop (di + 1)).take ti ++
            x :: (cur.take di ++ cur.drop (di + 1)).drop ti).map (fun c => c.id) =
            ((cur.map fun c => c.id).take di ++ (cur.map fun c => c.id).drop (di + 1)).take ti ++
              x.id :: ((cur.map fun c => c.id).take di ++
                (cur.map fun c => c.id).drop (di + 1)).drop ti := by
          simp [List.map_take, List.map_drop]
        have hxopt2 : (cur.map fun c => c.id)[di]? = some x.id := by
          rw [List.getElem?_map, hxopt]
          rfl
        have hqx : (fun y => y != dragged) x.id = false := by
          simp [hxid]
        have hR : (chars.map fun c => c.id).filter (fun y => y != dragged) =
            ((cur.map fun c => c.id).filter (fun y => y != dragged)).reverse := by
          simp [hcur]
        rw [List.map_reverse, List.filter_reverse, hmapped,
          splice_filter (cur.map fun c => c.id) di ti x.id _ hxopt2 hqx, hR]

/-- Witness for C6 at the concrete three-character reorder. -/
theorem drag_reorder_spec_witness :
    (([⟨"A", "A", "", ""⟩, ⟨"B", "B", "", ""⟩, ⟨"C", "C", "", ""⟩] : List Character).map
      (fun c => c.id)).Nodup ∧
    ((handleDrop [⟨"A", "A", "", ""⟩, ⟨"B", "B", "", ""⟩, ⟨"C", "C", "", ""⟩] "A" "C").map
      (fun c => c.id)).Nodup :=
  ⟨by decide,
    (drag_reorder_spec.2 [⟨"A", "A", "", ""⟩, ⟨"B", "B", "", ""⟩, ⟨"C", "C", "", ""⟩]
      "A" "C").2.2 (by decide)⟩

/-- `filterMap` keeps the length when the function succeeds on every
element. -/
theorem filterMap_length_eq {α β : Type} (l : List α) (f : α → Option β)
    (h : ∀ a ∈ l, (f a).isSome = true) : (l.filterMap f).length = l.length := by
  induction l with
  | nil => rfl
  | cons a l ih =>
    obtain ⟨b, hb⟩ := Option.isSome_iff_exists.mp (h a (List.mem_cons_self a l))
    rw [List.filterMap_cons, hb, List.length_cons, List.length_cons,
      ih fun a ha => h a (List.mem_cons_of_mem _ ha)]

/-- When the function succeeds on every element, the `i`-th element of
`filterMap` is the image of the `i`-th element. -/
theorem filterMap_getElem?_eq {α β : Type} (l : List α) (f : α → Option β)
    (h : ∀ a ∈ l, (f a).isSome = true) (i : Nat) :
    (l.filterMap f)[i]? = l[i]?.bind f := by
  induction l generalizing i with
  | nil => simp
  | cons a l ih =>
    obtain ⟨b, hb⟩ := Option.isSome_iff_exists.mp (h a (List.mem_cons_self a l))
    cases i with
    | zero => simp [List.filterMap_cons, hb]
    | succ j =>
      simp only [List.filterMap_cons, hb, List.getElem?_cons_succ]
      exact ih (fun a ha => h a (List.mem_cons_of_mem _ ha)) j

/-- `filterMap` is strictly shorter than the input when the function fails
on some member. -/
theorem filterMap_length_lt {α β : Type} (l : List α) (f : α → Option β) (a : α)
    (ha : a ∈ l) (hfa : f a = none) : (l.filterMap f).length < l.length := by
  induction l with
  | nil => cases ha
  | cons b l ih =>
    rcases List.mem_cons.mp ha with rfl | hmem
    · rw [List.filterMap_cons, hfa, List.length_cons]
      exact Nat.lt_succ_of_le (List.length_filterMap_le f l)
    · cases hfb : f b with
      | none =>
        rw [List.filterMap_cons, hfb, List.length_cons]
        exact Nat.lt_succ_of_lt (ih hmem)
      | some c =>
        rw [List.filterMap_cons, hfb, List.length_cons, List.length_cons]
        exact Nat.succ_lt_succ (ih hmem)

/-- When preprocessing succeeds, the PNG data URL it produces matches the
data-URL regex. -/
theorem dataUrlMatch_pngHead (png : List Char) (hne : png ≠ [])
    (hdot : png.all isDotChar = true) :
    ∃ md, dataUrlMatch (String.mk (pngHead ++ png)) = some md := by
  have hsplit : pngHead = dataHead ++ "image/png;base64,".data := by decide
  have hcs : (String.mk (pngHead ++ png)).data = pngHead ++ png := rfl
  have hpre : dataHead.isPrefixOf (pngHead ++ png) = true := by
    rw [hsplit, List.append_assoc]
    exact List.isPrefixOf_iff_prefix.mpr (List.prefix_append _ _)
  have hrest : (pngHead ++ png).drop dataHead.length = "image/png;base64,".data ++ png := by
    rw [hsplit, List.append_assoc, List.drop_left]
  unfold dataUrlMatch
  dsimp only
  rw [if_pos hpre, hrest]
  have hvalid : validBase64Split ("image/png;base64,".data ++ png) 9 = true := by
    have htake : ("image/png;base64,".data ++ png).take 9 = "image/png".data := by
      rw [List.take_append_of_le_length (by decide)]
      decide
    have hdrop : ("image/png;base64,".data ++ png).drop 9 = ";base64,".data ++ png := by
      rw [List.drop_append_of_le_length (by decide)]
      rfl
    have hdrop17 : ("image/png;base64,".data ++ png).drop 17 = png := by
      have hlen : ("image/png;base64,".data).length = 17 := by decide
      rw [← hlen, List.drop_left]
    have hmk : base64Marker.isPrefixOf (";base64,".data ++ png) = true :=
      List.isPrefixOf_iff_prefix.mpr (List.prefix_append _ _)
    have hnonempty : (("image/png;base64,".data ++ png).drop (9 + base64Marker.length)).isEmpty
        = false := by
      have : (9 + base64Marker.length) = 17 := by decide
      rw [this, hdrop17]
      cases png with
      | nil => exact absurd rfl hne
      | cons c cs => rfl
    have hsuffix : (("image/png;base64,".data ++ png).drop (9 + base64Marker.length)).all
        isDotChar = true := by
      have : (9 + base64Marker.length) = 17 := by decide
      rw [this, hdrop17]
      exact hdot
    unfold validBase64Split
    rw [htake]
    have h9 : decide (1 ≤ 9) = true := by decide
    have htakeAll : ("image/png".data).all isDotChar = true := by decide
    rw [h9, htakeAll, hdrop, hmk, hnonempty, hsuffix]
    rfl
  have hmemrange : 9 ∈ List.range (("image/png;base64,".data ++ png).length + 1) := by
    apply List.mem_range.mpr
    rw [List.length_append]
    have : ("image/png;base64,".data).length = 17 := by decide
    omega
  have hmem : 9 ∈ (List.range (("image/png;base64,".data ++ png).length + 1)).filter
      (validBase64Split ("image/png;base64,".data ++ png)) :=
    List.mem_filter.mpr ⟨hmemrange, hvalid⟩
  have hne2 : (List.range (("image/png;base64,".data ++ png).length + 1)).filter
      (validBase64Split ("image/png;base64,".data ++ png)) ≠ [] :=
    List.ne_nil_of_mem hmem
  obtain ⟨j, hj⟩ := Option.isSome_iff_exists.mp (List.getLast?_isSome.mpr hne2)
  rw [hj]
  exact ⟨_, rfl⟩

/-- C1: for a non-empty character sequence whose preprocessing environments
all succeed (image decoded, context acquired, non-empty single-line base64
payload), the composed request is exactly one image part per character, in
the same back-to-front order, followed by exactly one text part whose
content contains the layering narration of the whole sequence in that
order. -/
theorem scene_composition_one_part_per_character (chars : List Character)
    (envs : List PreprocessEnv) (scenePrompt : String)
    (hne : chars ≠ []) (hlen : envs.length = chars.length)
    (henv : ∀ e ∈ envs,
      e.decoded = true ∧ e.ctx = true ∧ e.png ≠ [] ∧ e.png.all isDotChar = true) :
    (generateScene chars envs scenePrompt).length = chars.length + 1 ∧
    (∀ (i : Nat) (c : Character) (e : PreprocessEnv), chars[i]? = some c → envs[i]? = some e →
      (generateScene chars envs scenePrompt)[i]? = imagePartOfChar c e ∧
      ∃ mimeType imgData, imagePartOfChar c e = some (GPart.image mimeType imgData)) ∧
    (generateScene chars envs scenePrompt)[chars.length]? =
      some (GPart.text (fullScenePrompt chars (sceneDirective scenePrompt).text
        (sceneDirective scenePrompt).transparentBackground)) ∧
    ∃ pre post,
      fullScenePrompt chars (sceneDirective scenePrompt).text
        (sceneDirective scenePrompt).transparentBackground =
        pre ++ layeringInstruction (chars.map fun c => c.name) ++ post := by
  have hsome : ∀ p ∈ chars.zip envs,
      ((fun p : Character × PreprocessEnv => imagePartOfChar p.1 p.2) p).isSome = true := by
    intro p hp
    obtain ⟨hd, hc, hpn, hdot⟩ := henv p.2 (List.of_mem_zip hp).2
    have hproc : processCharacterImage p.2 p.1.imageUrl = String.mk (pngHead ++ p.2.png) := by
      simp [processCharacterImage, hd, hc]
    obtain ⟨md, hmd⟩ := dataUrlMatch_pngHead p.2.png hpn hdot
    simp [imagePartOfChar, hproc, hmd]
  have hziplen : (chars.zip envs).length = chars.length := by
    rw [List.length_zip, hlen, Nat.min_self]
  have hfmlen : ((chars.zip envs).filterMap fun p => imagePartOfChar p.1 p.2).length =
      chars.length := by
    rw [filterMap_length_eq _ _ hsome, hziplen]
  refine ⟨?_, ?_, ?_, ?_⟩
  · simp only [generateScene, List.length_append, hfmlen, List.length_cons, List.length_nil]
  · intro i c e hci hei
    have hilt : i < chars.length := by
      obtain ⟨hw, -⟩ := List.getElem?_eq_some.mp hci
      exact hw
    have hz : (chars.zip envs)[i]? = some (c, e) :=
      List.getElem?_zip_eq_some.mpr ⟨hci, hei⟩
    have hidx : (generateScene chars envs scenePrompt)[i]? =
        ((chars.zip envs).filterMap fun p => imagePartOfChar p.1 p.2)[i]? := by
      simp only [generateScene]
      exact List.getElem?_append_left (by rw [hfmlen]; exact hilt)
    have hval := filterMap_getElem?_eq _ _ hsome i
    rw [hidx, hval, hz]
    refine ⟨rfl, ?_⟩
    have hmem : (c, e) ∈ chars.zip envs := List.getElem?_mem hz
    obtain ⟨g, hg⟩ := Option.isSome_iff_exists.mp (hsome (c, e) hmem)
    obtain ⟨md, hmd, hgmd⟩ := Option.map_eq_some'.mp hg
    exact ⟨md.1, md.2, by rw [imagePartOfChar, hmd]; rfl⟩
  · simp only [generateScene]
    rw [List.getElem?_append_right (by rw [hfmlen]), hfmlen]
    simp
  · unfold fullScenePrompt
    by_cases ht : (sceneDirective scenePrompt).transparentBackground
    · refine ⟨"Create a new scene featuring the " ++ toString chars.length ++
        " character(s) from the provided image(s). ",
        "Scene details: " ++ (sceneDirective scenePrompt).text ++
          ". Maintain the characters' appearance and style as closely as possible." ++
          " The background should be transparent or solid white to easily isolate the subjects.",
        ?_⟩
      rw [if_pos ht]
      simp [String.append_assoc]
    · refine ⟨"Create a new scene featuring the " ++ toString chars.length ++
        " character(s) from the provided image(s). ",
        "Scene details: " ++ (sceneDirective scenePrompt).text ++
          ". Maintain the characters' appearance and style as closely as possible.", ?_⟩
      rw [if_neg ht]
      simp [String.append_assoc]

/-- Witness for C1 with one character and a succeeding environment. -/
theorem scene_composition_one_part_per_character_witness :
    ([⟨"1", "A", "u", ""⟩] : List Character) ≠ [] ∧
    (generateScene [⟨"1", "A", "u", ""⟩] [⟨true, true, ['Q', 'Q']⟩] "hi").length = 1 + 1 :=
  ⟨by decide,
    (scene_composition_one_part_per_character [⟨"1", "A", "u", ""⟩]
      [⟨true, true, ['Q', 'Q']⟩] "hi" (by decide) (by decide) (by decide)).1⟩

/-- C10: a character whose preprocessed image URL does not match the
data-URL regex contributes no image part — the request silently has
strictly fewer image parts than characters — while the trailing text part
still announces the full character count and narrates every character. -/
theorem scene_composition_omits_unmatched (chars : List Character)
    (envs : List PreprocessEnv) (scenePrompt : String) (i : Nat) (c : Character)
    (e : PreprocessEnv) (hci : chars[i]? = some c) (hei : envs[i]? = some e)
    (hfail : dataUrlMatch (processCharacterImage e c.imageUrl) = none)
    (hlen : envs.length = chars.length) :
    (generateScene chars envs scenePrompt).length < chars.length + 1 ∧
    (generateScene chars envs scenePrompt).getLast? =
      some (GPart.text (fullScenePrompt chars (sceneDirective scenePrompt).text
        (sceneDirective scenePrompt).transparentBackground)) ∧
    (∃ pre post,
      fullScenePrompt chars (sceneDirective scenePrompt).text
        (sceneDirective scenePrompt).transparentBackground =
        pre ++ toString chars.length ++ post) ∧
    ∃ pre post,
      fullScenePrompt chars (sceneDirective scenePrompt).text
        (sceneDirective scenePrompt).transparentBackground =
        pre ++ layeringInstruction (chars.map fun c => c.name) ++ post := by
  have hz : (chars.zip envs)[i]? = some (c, e) :=
    List.getElem?_zip_eq_some.mpr ⟨hci, hei⟩
  have hmem : (c, e) ∈ chars.zip envs := List.getElem?_mem hz
  have hnone : (fun p : Character × PreprocessEnv => imagePartOfChar p.1 p.2) (c, e) = none := by
    simp [imagePartOfChar, hfail]
  have hziplen : (chars.zip envs).length = chars.length := by
    rw [List.length_zip, hlen, Nat.min_self]
  refine ⟨?_, ?_, ?_, ?_⟩
  · have hlt := filterMap_length_lt (chars.zip envs)
      (fun p => imagePartOfChar p.1 p.2) (c, e) hmem hnone
    rw [hziplen] at hlt
    simp only [generateScene, List.length_append, List.length_cons, List.length_nil]
    omega
  · simp only [generateScene]
    exact List.getLast?_concat _
  · unfold fullScenePrompt
    by_cases ht : (sceneDirective scenePrompt).transparentBackground
    · exact ⟨"Create a new scene featuring the ",
        " character(s) from the provided image(s). " ++
          layeringInstruction (chars.map fun c => c.name) ++
          "Scene details: " ++ (sceneDirective scenePrompt).text ++
          ". Maintain the characters' appearance and style as closely as possible." ++
          " The background should be transparent or solid white to easily isolate the subjects.",
        by rw [if_pos ht]; simp [String.append_assoc]⟩
    · exact ⟨"Create a new scene featuring the ",
        " character(s) from the provided image(s). " ++
          layeringInstruction (chars.map fun c => c.name) ++
          "Scene details: " ++ (sceneDirective scenePrompt).text ++
          ". Maintain the characters' appearance and style as closely as possible.",
        by rw [if_neg ht]; simp [String.append_assoc]⟩
  · unfold fullScenePrompt
    by_cases ht : (sceneDirective scenePrompt).transparentBackground
    · exact ⟨"Create a new scene featuring the " ++ toString chars.length ++
        " character(s) from the provided image(s). ",
        "Scene details: " ++ (sceneDirective scenePrompt).text ++
          ". Maintain the characters' appearance and style as closely as possible." ++
          " The background should be transparent or solid white to easily isolate the subjects.",
        by rw [if_pos ht]; simp [String.append_assoc]⟩
    · exact ⟨"Create a new scene featuring the " ++ toString chars.length ++
        " character(s) from the provided image(s). ",
        "Scene details: " ++ (sceneDirective scenePrompt).text ++
          ". Maintain the characters' appearance and style as closely as possible.",
        by rw [if_neg ht]; simp [String.append_assoc]⟩

/-- Witness for C10: two characters, the second of which fails to decode
and falls back to a non-data URL, so only one image part is sent while the
prompt still says two characters. -/
theorem scene_composition_omits_unmatched_witness :
    (([⟨"1", "A", "u", ""⟩, ⟨"2", "B", "garbage", ""⟩] : List Character))[1]? =
      some ⟨"2", "B", "garbage", ""⟩ ∧
    dataUrlMatch (processCharacterImage ⟨false, true, []⟩ "garbage") = none ∧
    (generateScene [⟨"1", "A", "u", ""⟩, ⟨"2", "B", "garbage", ""⟩]
      [⟨true, true, ['Q']⟩, ⟨false, true, []⟩] "hi").length < 2 + 1 :=
  ⟨by decide, by decide,
    (scene_composition_omits_unmatched [⟨"1", "A", "u", ""⟩, ⟨"2", "B", "garbage", ""⟩]
      [⟨true, true, ['Q']⟩, ⟨false, true, []⟩] "hi" 1 ⟨"2", "B", "garbage", ""⟩
      ⟨false, true, []⟩ (by decide) (by decide) (by decide) (by decide)).1⟩

end CSC
